import Mathlib

/-!
Verification development for the SST25V serial-flash driver
(`src/pic/SST25V.h`).

The driver is embedded at two levels, both translated from the source:

* a bit level for the two shift-register primitives `STFlash_SendByte`
  and `STFlash_GetByte` (clock edges, data-line levels, per-bit delays);
* a byte level for the command layer (`STFlash_readStatus`,
  `STFlash_ReadBlock`, `STFlash_Write1Byte`, `STFlash_WriteBlock`,
  `STFlash_EraseBlock`, ...), where each `STFlash_sendByte` /
  `STFlash_getByte` call of the source becomes one byte-granular bus
  event.

The flash chip itself is hardware and is not part of the repository; its
reaction to bus traffic is modelled from the specification (see the
`Device` structure and the `dev*` functions below).  The two unbounded
busy-wait loops of the source (`STFlash_waitUntilReady`'s line poll and
`STFlash_WriteBlock`'s status poll) are given fuel parameters, and are
additionally studied over an arbitrary oracle stream of samples in
`waitReadyPoll` / `statusPoll`.
-/

namespace SST25V

/-- Delay, in cycles, inserted after each clock edge (`SCLKDELAY`). -/
def SCLKDELAY : Nat := 2

/-- Delay, in microseconds, inserted after select transitions (`SELSDELAY`). -/
def SELSDELAY : Nat := 1

/-- A byte-granular event on the 4-wire bus.  `sel` / `desel` record an
actual transition of the chip-select line (driving a line to the level it
already has produces no event); `send` / `recv` are whole bytes shifted
out of / into the master; `pollDO` is a raw read of the data-out line as
done by `STFlash_waitUntilReady`; `delayUs` is a microsecond delay. -/
inductive Op where
  | sel : Op
  | desel : Op
  | clkLow : Op
  | send (b : Nat) : Op
  | recv (b : Nat) : Op
  | pollDO (b : Bool) : Op
  | delayUs (n : Nat) : Op
deriving DecidableEq, Repr

/-- Modelled from the spec: the state of the flash device, which is not
part of the repository (the source drives it over the bus).  `mem` is the
byte stored at each 24-bit address; `wel` the write-enable latch; `busy`
counts how many more busy observations the device will report before an
internal program/erase cycle completes; `latency` is the injectable
write-latency parameter (the value `busy` is reset to by a program or
erase); `sel` whether the chip-select line holds the device selected;
`frame` the bytes received since the last select; `readIdx` how many data
bytes have been streamed out in the current read command. -/
structure Device where
  mem : Nat → Nat
  wel : Bool
  busy : Nat
  latency : Nat
  sel : Bool
  frame : List Nat
  readIdx : Nat

/-- Driver-visible machine state: the device plus the accumulated trace
of bus events. -/
structure M where
  dev : Device
  trace : List Op

/-- The 24-bit address encoded by the three transmitted address bytes. -/
def addr24 (a2 a1 a0 : Nat) : Nat := a2 * 65536 + a1 * 256 + a0

/-- Modelled from the spec: the status byte returned by the device; bit 0
is the busy flag, bit 1 the write-enable latch, no other bits are
interpreted. -/
def devStatus (d : Device) : Nat :=
  (if d.busy ≠ 0 then 1 else 0) + (if d.wel then 2 else 0)

/-- Modelled from the spec: the command executed by the device when the
select line rises, decoded from the received frame.  `0x06` sets the
write-enable latch, `0x04` clears it, `0x02 a2 a1 a0 v` programs byte `v`
at the 24-bit address (accepted only with the latch set; the latch is not
auto-cleared, per the spec), `0xD8 a2 a1 a0` erases the containing
256-byte block to `0xFF`.  A program or erase makes the device busy for
`latency` further observations. -/
def devExec (d : Device) : Device :=
  match d.frame with
  | [0x06] => { d with wel := true }
  | [0x04] => { d with wel := false }
  | [0x02, a2, a1, a0, v] =>
      if d.wel then
        { d with mem := fun a => if a = addr24 a2 a1 a0 then v else d.mem a,
                 busy := d.latency }
      else d
  | [0xD8, a2, a1, a0] =>
      if d.wel then
        { d with mem := fun a => if a / 256 = addr24 a2 a1 a0 / 256 then 0xFF else d.mem a,
                 busy := d.latency }
      else d
  | _ => d

/-- Modelled from the spec: a falling edge on the select line starts a
fresh command frame. -/
def devSelLow (d : Device) : Device :=
  if d.sel then d else { d with sel := true, frame := [], readIdx := 0 }

/-- Modelled from the spec: a rising edge on the select line ends the
transaction and executes the decoded command. -/
def devSelHigh (d : Device) : Device :=
  if d.sel then
    { devExec d with sel := false, frame := [], readIdx := 0 }
  else d

/-- Modelled from the spec: the device appends each received byte to the
current command frame. -/
def devSend (d : Device) (b : Nat) : Device := { d with frame := d.frame ++ [b] }

/-- Modelled from the spec: the byte the device shifts out.  After a
`0x05` (read status) opcode it is the status byte, and the observation
ticks the busy countdown; after a `0x03 a2 a1 a0` (read) header it is the
memory byte at the 24-bit address plus the running read index. -/
def devRecv (d : Device) : Nat × Device :=
  match d.frame with
  | 0x05 :: _ => (devStatus d, { d with busy := d.busy - 1 })
  | 0x03 :: a2 :: a1 :: a0 :: _ =>
      (d.mem ((addr24 a2 a1 a0 + d.readIdx) % 16777216),
       { d with readIdx := d.readIdx + 1 })
  | _ => (0xFF, d)

/-- Drive the select line low (`output_low(FLASH_SELECT)`). -/
def selectLineLow (m : M) : M :=
  if m.dev.sel then m
  else { dev := devSelLow m.dev, trace := m.trace ++ [Op.sel] }

/-- Drive the select line high (`output_high(FLASH_SELECT)`). -/
def selectLineHigh (m : M) : M :=
  if m.dev.sel then { dev := devSelHigh m.dev, trace := m.trace ++ [Op.desel] }
  else m

/-- Drive the clock line low (`output_low(FLASH_CLOCK)`). -/
def clockLow (m : M) : M := { m with trace := m.trace ++ [Op.clkLow] }

/-- Microsecond delay (`delay_us(n)`). -/
def delay_us (n : Nat) (m : M) : M := { m with trace := m.trace ++ [Op.delayUs n] }

/-- Source `chip_select`: clock low, select line low, settling delay. -/
def chip_select (m : M) : M :=
  delay_us SELSDELAY (selectLineLow (clockLow m))

/-- Source `chip_deselect`: select line high, clock low, settling delay. -/
def chip_deselect (m : M) : M :=
  delay_us SELSDELAY (clockLow (selectLineHigh m))

/-- Byte-level view of source `STFlash_SendByte`: one byte shifted out to
the device (the `int8` parameter truncates to 8 bits at the call).  The
per-bit clocking is modelled separately by `STFlash_SendByte_bits`. -/
def STFlash_sendByte (b : Nat) (m : M) : M :=
  { dev := devSend m.dev (b % 256), trace := m.trace ++ [Op.send (b % 256)] }

/-- Byte-level view of source `STFlash_GetByte`: one byte shifted in from
the device.  The per-bit clocking is modelled separately by
`STFlash_GetByte_bits`. -/
def STFlash_getByte (m : M) : Nat × M :=
  let r := devRecv m.dev
  (r.1, { dev := r.2, trace := m.trace ++ [Op.recv r.1] })

/-- Raw read of the data-out line (`input(FLASH_DO)`).  Modelled from the
spec: during the status command the line reports the busy flag, and each
observation ticks the busy countdown. -/
def inputDO (m : M) : Bool × M :=
  let b : Bool := m.dev.busy != 0
  (b, { dev := { m.dev with busy := m.dev.busy - 1 },
        trace := m.trace ++ [Op.pollDO b] })

/-- Source `STFlash_readStatus`: select, send `0x05`, receive the status
byte, deselect, return it. -/
def STFlash_readStatus (m : M) : Nat × M :=
  let m := chip_select m
  let m := STFlash_sendByte 0x05 m
  let r := STFlash_getByte m
  let m := chip_deselect r.2
  (r.1, m)

/-- The `while(input(FLASH_DO));` loop of `STFlash_waitUntilReady`.  The
source loop is unbounded; `fuel` bounds the number of polls in the
embedding, and `none` means the loop would still be spinning. -/
def waitLoop : Nat → M → Option M
  | 0, _ => none
  | fuel + 1, m =>
      let r := inputDO m
      if r.1 then waitLoop fuel r.2 else some r.2

/-- Source `STFlash_waitUntilReady`: select, send `0x05`, spin on the raw
data-out line until it reads low, receive one byte, deselect. -/
def STFlash_waitUntilReady (fuel : Nat) (m : M) : Option M :=
  let m := chip_select m
  let m := STFlash_sendByte 0x05 m
  match waitLoop fuel m with
  | none => none
  | some m =>
      let r := STFlash_getByte m
      some (chip_deselect r.2)

/-- Source `STFlash_WriteEnable`: select, send `0x06`, deselect. -/
def STFlash_WriteEnable (m : M) : M :=
  let m := chip_select m
  let m := STFlash_sendByte 0x06 m
  chip_deselect m

/-- Source `STFlash_WriteDisable`: select, send `0x04`, deselect. -/
def STFlash_WriteDisable (m : M) : M :=
  let m := chip_select m
  let m := STFlash_sendByte 0x04 m
  chip_deselect m

/-- Source `STFlash_writeStatus`: write-enable, then select, send `0x01`
and the value, deselect, then write-disable. -/
def STFlash_writeStatus (value : Nat) (m : M) : M :=
  let m := STFlash_WriteEnable m
  let m := chip_select m
  let m := STFlash_sendByte 0x01 m
  let m := STFlash_sendByte value m
  let m := chip_deselect m
  STFlash_WriteDisable m

/-- Source `Make8(a, k)`: byte `k` of a machine integer. -/
def Make8 (a k : Nat) : Nat := a / 256 ^ k % 256

/-- Source `STFlash_getBytes`: read `size` consecutive bytes.  The
per-cell 8-bit shift loop is byte-granular here, as for
`STFlash_getByte`. -/
def STFlash_getBytes : Nat → M → List Nat × M
  | 0, m => ([], m)
  | n + 1, m =>
      let r := STFlash_getByte m
      let rs := STFlash_getBytes n r.2
      (r.1 :: rs.1, rs.2)

/-- Source `STFlash_ReadBlock`: select, send opcode `0x03` and the three
address bytes (big-endian), stream `size` bytes in, deselect.  The filled
buffer is returned as a list. -/
def STFlash_ReadBlock (Address size : Nat) (m : M) : List Nat × M :=
  let m := chip_select m
  let m := STFlash_sendByte 0x03 m
  let m := STFlash_sendByte (Make8 Address 2) m
  let m := STFlash_sendByte (Make8 Address 1) m
  let m := STFlash_sendByte (Make8 Address 0) m
  let r := STFlash_getBytes size m
  let m := chip_deselect r.2
  (r.1, m)

/-- Source `STFlash_Write1Byte`: write-enable, then select, send opcode
`0x02`, the three address bytes (big-endian) and the data byte,
deselect. -/
def STFlash_Write1Byte (Address data : Nat) (m : M) : M :=
  let m := STFlash_WriteEnable m
  let m := chip_select m
  let m := STFlash_sendByte 0x02 m
  let m := STFlash_sendByte (Make8 Address 2) m
  let m := STFlash_sendByte (Make8 Address 1) m
  let m := STFlash_sendByte (Make8 Address 0) m
  let m := STFlash_sendByte data m
  chip_deselect m

/-- The `while(STFlash_readStatus() & 0x01);` loop of
`STFlash_WriteBlock`.  The source loop is unbounded; `fuel` bounds the
number of status reads, and `none` means the loop would still be
spinning. -/
def pollStatus : Nat → M → Option M
  | 0, _ => none
  | fuel + 1, m =>
      let r := STFlash_readStatus m
      if r.1 &&& 0x01 ≠ 0 then pollStatus fuel r.2 else some r.2

/-- The `for` loop of source `STFlash_WriteBlock`: for each buffer byte,
write it at the next address, delay 10 us, then poll the status register
until the busy bit clears.  The buffer is a list and `size` is its
length. -/
def STFlash_WriteBlock_loop (Address : Nat) (buffer : List Nat) (fuel : Nat)
    (m : M) : Option M :=
  match buffer with
  | [] => some m
  | b :: rest =>
      let m := STFlash_Write1Byte Address b m
      let m := delay_us 10 m
      match pollStatus fuel m with
      | none => none
      | some m => STFlash_WriteBlock_loop (Address + 1) rest fuel m

/-- Source `STFlash_WriteBlock`: the per-byte program loop followed by a
single `STFlash_WriteDisable`. -/
def STFlash_WriteBlock (Address : Nat) (buffer : List Nat) (fuel : Nat)
    (m : M) : Option M :=
  match STFlash_WriteBlock_loop Address buffer fuel m with
  | none => none
  | some m => some (STFlash_WriteDisable m)

/-- Source `STFlash_EraseBlock`: write-enable, select, send opcode `0xD8`
and the three address bytes, then a raw `output_high(FLASH_SELECT)`
followed by `chip_deselect` (the source's redundant double deselect),
then write-disable. -/
def STFlash_EraseBlock (Address : Nat) (m : M) : M :=
  let m := STFlash_WriteEnable m
  let m := chip_select m
  let m := STFlash_sendByte 0xD8 m
  let m := STFlash_sendByte (Make8 Address 2) m
  let m := STFlash_sendByte (Make8 Address 1) m
  let m := STFlash_sendByte (Make8 Address 0) m
  let m := selectLineHigh m
  let m := chip_deselect m
  STFlash_WriteDisable m

/-- A bit-granular event on the bus, for the two shift-register
primitives. -/
inductive BitEv where
  | di (b : Bool) : BitEv
  | clkHigh : BitEv
  | clkLow : BitEv
  | delayCyc (n : Nat) : BitEv
deriving DecidableEq, Repr

/-- The body of source `STFlash_SendByte`, iterated `i` more times with
shift register contents `data`: `shift_left(&data,1,0)` shifts the 8-bit
register left (shifting in 0) and yields the bit shifted out, which is
driven onto the data line; then the clock is pulsed high and low with a
fixed delay after each edge. -/
def STFlash_SendByte_loop : Nat → Nat → List BitEv
  | 0, _ => []
  | i + 1, data =>
      BitEv.di (decide (128 ≤ data)) :: BitEv.clkHigh :: BitEv.delayCyc SCLKDELAY ::
        BitEv.clkLow :: BitEv.delayCyc SCLKDELAY ::
          STFlash_SendByte_loop i (data * 2 % 256)

/-- Source `STFlash_SendByte` at the bit level: 8 iterations of the shift
loop on the truncated 8-bit argument. -/
def STFlash_SendByte_bits (data : Nat) : List BitEv :=
  STFlash_SendByte_loop 8 (data % 256)

/-- Specification-side definition, following the claim's words: the 8
bits of a byte value in most-significant-bit-first order. -/
def bitsMSB (v : Nat) : List Bool :=
  [decide (v / 128 % 2 = 1), decide (v / 64 % 2 = 1), decide (v / 32 % 2 = 1),
   decide (v / 16 % 2 = 1), decide (v / 8 % 2 = 1), decide (v / 4 % 2 = 1),
   decide (v / 2 % 2 = 1), decide (v % 2 = 1)]

/-- Specification-side definition, following the claim's words: for each
bit in order, drive the data line to the bit, raise the clock, hold a
fixed delay, lower the clock, hold the same delay. -/
def sendPattern : List Bool → List BitEv
  | [] => []
  | b :: rest =>
      BitEv.di b :: BitEv.clkHigh :: BitEv.delayCyc SCLKDELAY ::
        BitEv.clkLow :: BitEv.delayCyc SCLKDELAY :: sendPattern rest

/-- The 8-bit left shift with carry-in of source `shift_left(&x,1,bit)`
as used by `STFlash_GetByte`: the accumulator is shifted left one place
and the sampled line level enters at bit 0. -/
def shiftInBit (acc : Nat) (b : Bool) : Nat :=
  (acc * 2 + (if b then 1 else 0)) % 256

/-- Source `STFlash_GetByte` at the bit level: the local accumulator
starts at the arbitrary (uninitialized) value `init`, and each of the 8
sampled data-out levels is shifted in, MSB first.  `samples` lists the 8
levels read on the line. -/
def STFlash_GetByte_bits (init : Nat) (samples : List Bool) : Nat :=
  samples.foldl shiftInBit init

/-- Specification-side definition: the byte assembled MSB-first from the
sampled levels. -/
def assembleMSB (samples : List Bool) : Nat :=
  samples.foldl (fun a b => a * 2 + (if b then 1 else 0)) 0

/-- The `while(input(FLASH_DO));` loop of `STFlash_waitUntilReady` over
an arbitrary oracle stream `f` of line samples (`f k` is the level read
by the `k`-th poll).  `fuel` bounds the embedding; `none` means the
source loop is still spinning after `fuel` polls. -/
def waitReadyPoll (f : Nat → Bool) : Nat → Nat → Option Nat
  | 0, _ => none
  | fuel + 1, k => if f k then waitReadyPoll f fuel (k + 1) else some k

/-- The `while(STFlash_readStatus() & 0x01);` loop of
`STFlash_WriteBlock` over an arbitrary oracle stream `g` of status bytes
(`g k` is the status returned by the `k`-th read).  `none` means the
source loop is still spinning after `fuel` reads. -/
def statusPoll (g : Nat → Nat) : Nat → Nat → Option Nat
  | 0, _ => none
  | fuel + 1, k => if g k &&& 0x01 ≠ 0 then statusPoll g fuel (k + 1) else some k

/-- Whether a byte-level event is a falling edge of the select line. -/
def isSel : Op → Bool
  | Op.sel => true
  | _ => false

/-- Whether a byte-level event is a rising edge of the select line. -/
def isDesel : Op → Bool
  | Op.desel => true
  | _ => false

/-- Number of select (falling) edges in a trace. -/
def selCount (t : List Op) : Nat := t.countP isSel

/-- Number of deselect (rising) edges in a trace. -/
def deselCount (t : List Op) : Nat := t.countP isDesel

/-- The bytes sent to the device, in order. -/
def sentBytes (t : List Op) : List Nat :=
  t.filterMap fun o => match o with
    | Op.send b => some b
    | _ => none

/-- Number of 10-microsecond delays (the fixed post-program settle of
`STFlash_WriteBlock`) in a trace. -/
def delay10Count (t : List Op) : Nat :=
  t.countP fun o => match o with
    | Op.delayUs n => n == 10
    | _ => false

/-- Splitting helper for `frames`: `cur` is the partial frame of an open
transaction, if one is open. -/
def framesAux : List Op → Option (List Nat) → List (List Nat)
  | [], _ => []
  | Op.sel :: rest, _ => framesAux rest (some [])
  | Op.desel :: rest, some cur => cur :: framesAux rest none
  | Op.desel :: rest, none => framesAux rest none
  | Op.send b :: rest, some cur => framesAux rest (some (cur ++ [b]))
  | _ :: rest, st => framesAux rest st

/-- The command frames of a trace: for each select..deselect transaction,
the list of bytes sent within it. -/
def frames (t : List Op) : List (List Nat) := framesAux t none

/-- Specification-side definition for the `STFlash_WriteBlock` claim: the
bytes that go over the bus during the program loop, per the claim's
words — for each buffer byte, a write-enable frame, a program frame with
the big-endian address and the byte, then `lat + 1` status reads (the
busy bit is seen set `lat` times and clear once); the final
write-disable frame is appended by the caller. -/
def wbSent (A lat : Nat) : List Nat → List Nat
  | [] => []
  | b :: rest =>
      0x06 :: 0x02 :: Make8 A 2 :: Make8 A 1 :: Make8 A 0 :: b % 256 ::
        (List.replicate (lat + 1) 0x05 ++ wbSent (A + 1) lat rest)

/-- The memory function after programming the buffer bytes at successive
addresses (reduced to 24 bits), as `STFlash_WriteBlock` does. -/
def writeMem : Nat → List Nat → (Nat → Nat) → Nat → Nat
  | _, [], mem => mem
  | A, b :: rest, mem =>
      writeMem (A + 1) rest
        (fun a => if a = addr24 (Make8 A 2) (Make8 A 1) (Make8 A 0) then b % 256 else mem a)

/-- The list of bytes a read command streams out of device memory:
`n` bytes starting at `base + r` (addresses reduced to 24 bits). -/
def readSeq (mem : Nat → Nat) (base : Nat) : Nat → Nat → List Nat
  | _, 0 => []
  | r, n + 1 => mem ((base + r) % 16777216) :: readSeq mem base (r + 1) n

/-- The bus events of one run of the `STFlash_WriteBlock` status-poll
loop entered with the write-enable latch set and `busy` remaining busy
observations: `busy` status reads return a set busy bit, the final one
returns it clear. -/
def pollTrace (wel : Bool) : Nat → List Op
  | 0 => [Op.clkLow, Op.sel, Op.delayUs SELSDELAY, Op.send 0x05,
          Op.recv (if wel then 2 else 0),
          Op.desel, Op.clkLow, Op.delayUs SELSDELAY]
  | b + 1 => Op.clkLow :: Op.sel :: Op.delayUs SELSDELAY :: Op.send 0x05 ::
      Op.recv (1 + if wel then 2 else 0) ::
        Op.desel :: Op.clkLow :: Op.delayUs SELSDELAY :: pollTrace wel b

/-- The bus events of the `STFlash_WriteBlock` program loop: per buffer
byte, a write-enable transaction, a byte-program transaction, the 10 us
settle delay, and the status-poll run. -/
def wbTrace (A lat : Nat) : List Nat → List Op
  | [] => []
  | b :: rest =>
      Op.clkLow :: Op.sel :: Op.delayUs SELSDELAY :: Op.send 0x06 ::
        Op.desel :: Op.clkLow :: Op.delayUs SELSDELAY ::
      Op.clkLow :: Op.sel :: Op.delayUs SELSDELAY :: Op.send 0x02 ::
        Op.send (Make8 A 2) :: Op.send (Make8 A 1) :: Op.send (Make8 A 0) ::
        Op.send (b % 256) :: Op.desel :: Op.clkLow :: Op.delayUs SELSDELAY ::
      Op.delayUs 10 ::
        (pollTrace true lat ++ wbTrace (A + 1) lat rest)

/-- The data-line levels of a bit-level trace, in transmission order. -/
def dataBits (t : List BitEv) : List Bool :=
  t.filterMap fun e => match e with
    | BitEv.di b => some b
    | _ => none

/-- A command call is balanced when it only appends events to the trace,
closes every select it opens (equally many falling and rising edges in
the appended segment), and returns with the device deselected. -/
def balancedFrom (m m' : M) : Prop :=
  ∃ E, m'.trace = m.trace ++ E ∧ selCount E = deselCount E ∧ m'.dev.sel = false

/-- `balancedFrom` for commands returning `Option M`; a `none` result
(spent fuel) does not satisfy it. -/
def balancedFromO (m : M) : Option M → Prop
  | none => False
  | some m' => balancedFrom m m'

/-- A command call performs exactly `k` select → deselect traversals of
the bus-transaction chain when the appended trace segment contains `k`
falling and `k` rising edges of the select line. -/
def traversals (m m' : M) (k : Nat) : Prop :=
  ∃ E, m'.trace = m.trace ++ E ∧ selCount E = k ∧ deselCount E = k

/-- `traversals` for commands returning `Option M`. -/
def traversalsO (m : M) (r : Option M) (k : Nat) : Prop :=
  match r with
  | none => False
  | some m' => traversals m m' k

/-- A concrete machine state (blank memory, idle, deselected device) used
for counterexamples. -/
def m0 : M := ⟨⟨fun _ => 0, false, 0, 0, false, [], 0⟩, []⟩

/-! ### Characterization lemmas for single commands

Each lemma computes a command's result on an arbitrary deselected entry
state.  `devStatus` is left symbolic where the returned byte depends on
the device. -/

theorem WriteEnable_eq (mem : Nat → Nat) (wel : Bool) (busy lat ri : Nat)
    (fr : List Nat) (t : List Op) :
    STFlash_WriteEnable ⟨⟨mem, wel, busy, lat, false, fr, ri⟩, t⟩ =
      ⟨⟨mem, true, busy, lat, false, [], 0⟩,
       t ++ [Op.clkLow, Op.sel, Op.delayUs SELSDELAY, Op.send 0x06,
             Op.desel, Op.clkLow, Op.delayUs SELSDELAY]⟩ := by
  simp [STFlash_WriteEnable, chip_select, chip_deselect, clockLow, selectLineLow,
        selectLineHigh, delay_us, STFlash_sendByte, devSelLow, devSelHigh, devSend,
        devExec, SELSDELAY]

theorem WriteDisable_eq (mem : Nat → Nat) (wel : Bool) (busy lat ri : Nat)
    (fr : List Nat) (t : List Op) :
    STFlash_WriteDisable ⟨⟨mem, wel, busy, lat, false, fr, ri⟩, t⟩ =
      ⟨⟨mem, false, busy, lat, false, [], 0⟩,
       t ++ [Op.clkLow, Op.sel, Op.delayUs SELSDELAY, Op.send 0x04,
             Op.desel, Op.clkLow, Op.delayUs SELSDELAY]⟩ := by
  simp [STFlash_WriteDisable, chip_select, chip_deselect, clockLow, selectLineLow,
        selectLineHigh, delay_us, STFlash_sendByte, devSelLow, devSelHigh, devSend,
        devExec, SELSDELAY]

theorem readStatus_eq (mem : Nat → Nat) (wel : Bool) (busy lat ri : Nat)
    (fr : List Nat) (t : List Op) :
    STFlash_readStatus ⟨⟨mem, wel, busy, lat, false, fr, ri⟩, t⟩ =
      (devStatus ⟨mem, wel, busy, lat, false, fr, ri⟩,
       ⟨⟨mem, wel, busy - 1, lat, false, [], 0⟩,
        t ++ [Op.clkLow, Op.sel, Op.delayUs SELSDELAY, Op.send 0x05,
              Op.recv (devStatus ⟨mem, wel, busy, lat, false, fr, ri⟩),
              Op.desel, Op.clkLow, Op.delayUs SELSDELAY]⟩) := by
  simp [STFlash_readStatus, chip_select, chip_deselect, clockLow, selectLineLow,
        selectLineHigh, delay_us, STFlash_sendByte, STFlash_getByte, devSelLow,
        devSelHigh, devSend, devRecv, devExec, devStatus, SELSDELAY]

theorem writeStatus_eq (value : Nat) (mem : Nat → Nat) (wel : Bool)
    (busy lat ri : Nat) (fr : List Nat) (t : List Op) :
    STFlash_writeStatus value ⟨⟨mem, wel, busy, lat, false, fr, ri⟩, t⟩ =
      ⟨⟨mem, false, busy, lat, false, [], 0⟩,
       t ++ [Op.clkLow, Op.sel, Op.delayUs SELSDELAY, Op.send 0x06,
             Op.desel, Op.clkLow, Op.delayUs SELSDELAY,
             Op.clkLow, Op.sel, Op.delayUs SELSDELAY, Op.send 0x01,
             Op.send (value % 256), Op.desel, Op.clkLow, Op.delayUs SELSDELAY,
             Op.clkLow, Op.sel, Op.delayUs SELSDELAY, Op.send 0x04,
             Op.desel, Op.clkLow, Op.delayUs SELSDELAY]⟩ := by
  simp [STFlash_writeStatus, STFlash_WriteEnable, STFlash_WriteDisable, chip_select,
        chip_deselect, clockLow, selectLineLow, selectLineHigh, delay_us,
        STFlash_sendByte, devSelLow, devSelHigh, devSend, devExec, SELSDELAY]

theorem Write1Byte_eq (A v : Nat) (mem : Nat → Nat) (wel : Bool)
    (busy lat ri : Nat) (fr : List Nat) (t : List Op) :
    STFlash_Write1Byte A v ⟨⟨mem, wel, busy, lat, false, fr, ri⟩, t⟩ =
      ⟨⟨fun a => if a = addr24 (Make8 A 2) (Make8 A 1) (Make8 A 0) then v % 256 else mem a,
        true, lat, lat, false, [], 0⟩,
       t ++ [Op.clkLow, Op.sel, Op.delayUs SELSDELAY, Op.send 0x06,
             Op.desel, Op.clkLow, Op.delayUs SELSDELAY,
             Op.clkLow, Op.sel, Op.delayUs SELSDELAY, Op.send 0x02,
             Op.send (Make8 A 2), Op.send (Make8 A 1), Op.send (Make8 A 0),
             Op.send (v % 256), Op.desel, Op.clkLow, Op.delayUs SELSDELAY]⟩ := by
  have h2 : Make8 A 2 % 256 = Make8 A 2 := Nat.mod_eq_of_lt (Nat.mod_lt _ (by omega))
  have h1 : Make8 A 1 % 256 = Make8 A 1 := Nat.mod_eq_of_lt (Nat.mod_lt _ (by omega))
  have h0 : Make8 A 0 % 256 = Make8 A 0 := Nat.mod_eq_of_lt (Nat.mod_lt _ (by omega))
  simp [STFlash_Write1Byte, STFlash_WriteEnable, chip_select, chip_deselect,
        clockLow, selectLineLow, selectLineHigh, delay_us, STFlash_sendByte,
        devSelLow, devSelHigh, devSend, devExec, h2, h1, h0, SELSDELAY]

theorem EraseBlock_eq (A : Nat) (mem : Nat → Nat) (wel : Bool)
    (busy lat ri : Nat) (fr : List Nat) (t : List Op) :
    STFlash_EraseBlock A ⟨⟨mem, wel, busy, lat, false, fr, ri⟩, t⟩ =
      ⟨⟨fun a => if a / 256 = addr24 (Make8 A 2) (Make8 A 1) (Make8 A 0) / 256
                 then 0xFF else mem a,
        false, lat, lat, false, [], 0⟩,
       t ++ [Op.clkLow, Op.sel, Op.delayUs SELSDELAY, Op.send 0x06,
             Op.desel, Op.clkLow, Op.delayUs SELSDELAY,
             Op.clkLow, Op.sel, Op.delayUs SELSDELAY, Op.send 0xD8,
             Op.send (Make8 A 2), Op.send (Make8 A 1), Op.send (Make8 A 0),
             Op.desel, Op.clkLow, Op.delayUs SELSDELAY,
             Op.clkLow, Op.sel, Op.delayUs SELSDELAY, Op.send 0x04,
             Op.desel, Op.clkLow, Op.delayUs SELSDELAY]⟩ := by
  have h2 : Make8 A 2 % 256 = Make8 A 2 := Nat.mod_eq_of_lt (Nat.mod_lt _ (by omega))
  have h1 : Make8 A 1 % 256 = Make8 A 1 := Nat.mod_eq_of_lt (Nat.mod_lt _ (by omega))
  have h0 : Make8 A 0 % 256 = Make8 A 0 := Nat.mod_eq_of_lt (Nat.mod_lt _ (by omega))
  simp [STFlash_EraseBlock, STFlash_WriteEnable, STFlash_WriteDisable, chip_select,
        chip_deselect, clockLow, selectLineLow, selectLineHigh, delay_us,
        STFlash_sendByte, devSelLow, devSelHigh, devSend, devExec, h2, h1, h0, SELSDELAY]

theorem getBytes_eq (n : Nat) : ∀ (mem : Nat → Nat) (wel : Bool)
    (busy lat a2 a1 a0 : Nat) (rest : List Nat) (ri : Nat) (t : List Op),
    STFlash_getBytes n ⟨⟨mem, wel, busy, lat, true, 0x03 :: a2 :: a1 :: a0 :: rest, ri⟩, t⟩ =
      (readSeq mem (addr24 a2 a1 a0) ri n,
       ⟨⟨mem, wel, busy, lat, true, 0x03 :: a2 :: a1 :: a0 :: rest, ri + n⟩,
        t ++ (readSeq mem (addr24 a2 a1 a0) ri n).map Op.recv⟩) := by
  induction n with
  | zero => intro mem wel busy lat a2 a1 a0 rest ri t
            simp [STFlash_getBytes, readSeq]
  | succ k ih =>
      intro mem wel busy lat a2 a1 a0 rest ri t
      simp only [STFlash_getBytes, STFlash_getByte, devRecv, readSeq]
      rw [ih]
      simp [readSeq, List.append_assoc]
      omega

theorem ReadBlock_eq (A n : Nat) (mem : Nat → Nat) (wel : Bool)
    (busy lat ri : Nat) (fr : List Nat) (t : List Op) :
    STFlash_ReadBlock A n ⟨⟨mem, wel, busy, lat, false, fr, ri⟩, t⟩ =
      (readSeq mem (addr24 (Make8 A 2) (Make8 A 1) (Make8 A 0)) 0 n,
       ⟨⟨mem, wel, busy, lat, false, [], 0⟩,
        t ++ Op.clkLow :: Op.sel :: Op.delayUs SELSDELAY :: Op.send 0x03 ::
          Op.send (Make8 A 2) :: Op.send (Make8 A 1) :: Op.send (Make8 A 0) ::
          ((readSeq mem (addr24 (Make8 A 2) (Make8 A 1) (Make8 A 0)) 0 n).map Op.recv ++
           [Op.desel, Op.clkLow, Op.delayUs SELSDELAY])⟩) := by
  have h2 : Make8 A 2 % 256 = Make8 A 2 := Nat.mod_eq_of_lt (Nat.mod_lt _ (by omega))
  have h1 : Make8 A 1 % 256 = Make8 A 1 := Nat.mod_eq_of_lt (Nat.mod_lt _ (by omega))
  have h0 : Make8 A 0 % 256 = Make8 A 0 := Nat.mod_eq_of_lt (Nat.mod_lt _ (by omega))
  simp only [STFlash_ReadBlock, chip_select, clockLow, selectLineLow, delay_us,
             STFlash_sendByte, devSelLow, devSend, h2, h1, h0, Bool.false_eq_true,
             if_false, List.nil_append, List.cons_append, List.append_assoc]
  rw [getBytes_eq]
  simp [chip_deselect, clockLow, selectLineHigh, devSelHigh, devExec, delay_us,
        List.append_assoc]

theorem waitLoop_eq (fuel : Nat) : ∀ (m : M), m.dev.busy < fuel →
    waitLoop fuel m =
      some ⟨{ m.dev with busy := 0 },
            m.trace ++ (List.replicate m.dev.busy (Op.pollDO true) ++ [Op.pollDO false])⟩ := by
  induction fuel with
  | zero => intro m h; omega
  | succ k ih =>
      intro m h
      rcases hb : m.dev.busy with _ | b
      · simp [waitLoop, inputDO, hb]
      · have step : waitLoop (k + 1) m =
            waitLoop k ⟨{ m.dev with busy := b }, m.trace ++ [Op.pollDO true]⟩ := by
          simp [waitLoop, inputDO, hb]
        rw [step, ih ⟨{ m.dev with busy := b }, m.trace ++ [Op.pollDO true]⟩ (by simp; omega)]
        simp [hb, List.replicate_succ, List.append_assoc]

theorem pollStatus_eq (busy : Nat) : ∀ (fuel : Nat) (mem : Nat → Nat) (wel : Bool)
    (lat ri : Nat) (fr : List Nat) (t : List Op), busy < fuel →
    pollStatus fuel ⟨⟨mem, wel, busy, lat, false, fr, ri⟩, t⟩ =
      some ⟨⟨mem, wel, 0, lat, false, [], 0⟩, t ++ pollTrace wel busy⟩ := by
  induction busy with
  | zero =>
      intro fuel mem wel lat ri fr t h
      rcases fuel with _ | f
      · omega
      · simp only [pollStatus, readStatus_eq, devStatus]
        rcases wel with _ | _ <;> simp [pollTrace]
  | succ b ih =>
      intro fuel mem wel lat ri fr t h
      rcases fuel with _ | f
      · omega
      · have hcond : (devStatus ⟨mem, wel, b + 1, lat, false, fr, ri⟩) &&& 0x01 ≠ 0 := by
          rcases wel with _ | _ <;> simp [devStatus]
        simp only [pollStatus, readStatus_eq]
        rw [if_pos hcond]
        simp only [Nat.add_sub_cancel]
        rw [ih f mem wel lat 0 [] _ (by omega)]
        rcases wel with _ | _ <;>
          simp [pollTrace, devStatus, List.append_assoc]

theorem waitUntilReady_eq (fuel : Nat) (mem : Nat → Nat) (wel : Bool)
    (busy lat ri : Nat) (fr : List Nat) (t : List Op) (h : busy < fuel) :
    STFlash_waitUntilReady fuel ⟨⟨mem, wel, busy, lat, false, fr, ri⟩, t⟩ =
      some ⟨⟨mem, wel, 0, lat, false, [], 0⟩,
        t ++ Op.clkLow :: Op.sel :: Op.delayUs SELSDELAY :: Op.send 0x05 ::
          (List.replicate busy (Op.pollDO true) ++
           [Op.pollDO false, Op.recv (if wel then 2 else 0),
            Op.desel, Op.clkLow, Op.delayUs SELSDELAY])⟩ := by
  simp only [STFlash_waitUntilReady, chip_select, clockLow, selectLineLow, delay_us,
             STFlash_sendByte, devSelLow, devSend, Bool.false_eq_true, if_false,
             List.nil_append, List.cons_append, List.append_assoc]
  rw [waitLoop_eq fuel _ (by simpa using h)]
  simp [STFlash_getByte, devRecv, devStatus, chip_deselect, clockLow, selectLineHigh,
        devSelHigh, devExec, delay_us, List.append_assoc]

theorem WriteBlock_loop_eq (data : List Nat) : ∀ (A : Nat) (mem : Nat → Nat)
    (wel : Bool) (busy lat ri : Nat) (fr : List Nat) (t : List Op) (fuel : Nat),
    lat < fuel →
    STFlash_WriteBlock_loop A data fuel ⟨⟨mem, wel, busy, lat, false, fr, ri⟩, t⟩ =
      some (match data with
            | [] => ⟨⟨mem, wel, busy, lat, false, fr, ri⟩, t⟩
            | _ :: _ =>
                ⟨⟨writeMem A data mem, true, 0, lat, false, [], 0⟩,
                 t ++ wbTrace A lat data⟩) := by
  induction data with
  | nil => intro A mem wel busy lat ri fr t fuel h; rfl
  | cons b rest ih =>
      intro A mem wel busy lat ri fr t fuel h
      simp only [STFlash_WriteBlock_loop, Write1Byte_eq, delay_us]
      simp only [pollStatus_eq lat fuel _ _ _ _ _ _ h]
      rw [ih (A + 1) _ _ _ _ _ _ _ fuel h]
      rcases rest with _ | ⟨c, rest⟩
      · simp [writeMem, wbTrace, List.append_assoc]
      · simp [writeMem, wbTrace, List.append_assoc]

theorem WriteBlock_eq (data : List Nat) (A : Nat) (mem : Nat → Nat) (wel : Bool)
    (busy lat ri : Nat) (fr : List Nat) (t : List Op) (fuel : Nat) (h : lat < fuel) :
    STFlash_WriteBlock A data fuel ⟨⟨mem, wel, busy, lat, false, fr, ri⟩, t⟩ =
      some (match data with
            | [] =>
                ⟨⟨mem, false, busy, lat, false, [], 0⟩,
                 t ++ [Op.clkLow, Op.sel, Op.delayUs SELSDELAY, Op.send 0x04,
                       Op.desel, Op.clkLow, Op.delayUs SELSDELAY]⟩
            | _ :: _ =>
                ⟨⟨writeMem A data mem, false, 0, lat, false, [], 0⟩,
                 t ++ wbTrace A lat data ++
                   [Op.clkLow, Op.sel, Op.delayUs SELSDELAY, Op.send 0x04,
                    Op.desel, Op.clkLow, Op.delayUs SELSDELAY]⟩) := by
  rcases data with _ | ⟨b, rest⟩
  · simp only [STFlash_WriteBlock, WriteBlock_loop_eq [] A mem wel busy lat ri fr t fuel h]
    simp [WriteDisable_eq]
  · simp only [STFlash_WriteBlock,
               WriteBlock_loop_eq (b :: rest) A mem wel busy lat ri fr t fuel h]
    simp [WriteDisable_eq, List.append_assoc]

/-! ### Address arithmetic and memory lemmas -/

theorem addr24_Make8 (A : Nat) :
    addr24 (Make8 A 2) (Make8 A 1) (Make8 A 0) = A % 16777216 := by
  simp only [addr24, Make8]
  omega

theorem writeMem_out (data : List Nat) : ∀ (A : Nat) (mem : Nat → Nat) (a : Nat),
    (∀ i, i < data.length → a ≠ (A + i) % 16777216) →
    writeMem A data mem a = mem a := by
  induction data with
  | nil => intro A mem a _; rfl
  | cons b rest ih =>
      intro A mem a h
      have h0 : a ≠ A % 16777216 := by
        have := h 0 (by simp)
        simpa using this
      simp only [writeMem]
      rw [ih (A + 1) _ a (fun i hi => by
        have := h (i + 1) (by simpa using Nat.succ_lt_succ hi)
        omega)]
      rw [addr24_Make8, if_neg h0]

theorem writeMem_get (data : List Nat) : ∀ (A : Nat) (mem : Nat → Nat) (i : Nat)
    (hi : i < data.length), data.length ≤ 16777216 →
    writeMem A data mem ((A + i) % 16777216) = data[i] % 256 := by
  induction data with
  | nil => intro A mem i hi _; simp at hi
  | cons b rest ih =>
      intro A mem i hi hlen
      rcases i with _ | j
      · simp only [writeMem, List.getElem_cons_zero]
        rw [writeMem_out rest (A + 1) _ _ (fun j hj => by
          intro hEq
          have hd : (16777216 : Nat) ∣ (1 + j) := by
            have h1 : A % 16777216 = (A + (1 + j)) % 16777216 := by
              rw [Nat.add_zero] at hEq
              rw [hEq]; ring_nf
            have h2 : A ≡ A + (1 + j) [MOD 16777216] := h1
            have h3 := (Nat.modEq_iff_dvd' (Nat.le_add_right _ _)).mp h2
            simpa using h3
          have hle := Nat.le_of_dvd (by omega) hd
          have : rest.length + 1 ≤ 16777216 := by simpa using hlen
          omega)]
        rw [addr24_Make8, Nat.add_zero, if_pos rfl]
      · simp only [writeMem, List.getElem_cons_succ]
        have : A + (j + 1) = (A + 1) + j := by omega
        rw [this]
        exact ih (A + 1) _ j (by simpa using Nat.lt_of_succ_lt_succ hi)
          (by simp at hlen; omega)

theorem readSeq_length (mem : Nat → Nat) (base : Nat) :
    ∀ (n r : Nat), (readSeq mem base r n).length = n := by
  intro n
  induction n with
  | zero => intro r; rfl
  | succ k ih => intro r; simp [readSeq, ih]

theorem readSeq_getElem (mem : Nat → Nat) (base : Nat) :
    ∀ (n r i : Nat) (h : i < (readSeq mem base r n).length),
    (readSeq mem base r n)[i] = mem ((base + r + i) % 16777216) := by
  intro n
  induction n with
  | zero => intro r i h; simp [readSeq] at h
  | succ k ih =>
      intro r i h
      rcases i with _ | j
      · simp [readSeq]
      · simp only [readSeq, List.getElem_cons_succ]
        rw [ih (r + 1) j]
        congr 1
        omega

/-! ### Bit-level serialization lemmas -/

set_option maxRecDepth 4000 in
theorem SendByte_loop_eq_pattern :
    ∀ w, w < 256 → STFlash_SendByte_loop 8 w = sendPattern (bitsMSB w) := by
  decide

theorem dataBits_sendPattern : ∀ bs : List Bool, dataBits (sendPattern bs) = bs := by
  intro bs
  induction bs with
  | nil => rfl
  | cons b rest ih => simp [sendPattern, dataBits, List.filterMap_cons] at ih ⊢; exact ih

theorem assembleMSB_from (s : List Bool) : ∀ acc : Nat,
    s.foldl (fun a b => a * 2 + (if b then 1 else 0)) acc =
      acc * 2 ^ s.length + assembleMSB s := by
  induction s with
  | nil => intro acc; simp [assembleMSB]
  | cons b t ih =>
      intro acc
      have hA : assembleMSB (b :: t) =
          (if b then 1 else 0) * 2 ^ t.length + assembleMSB t := by
        simp only [assembleMSB, List.foldl_cons, Nat.zero_mul, Nat.zero_add]
        exact ih _
      simp only [List.foldl_cons, hA, List.length_cons]
      rw [ih (acc * 2 + if b then 1 else 0)]
      ring

theorem assembleMSB_lt (s : List Bool) : assembleMSB s < 2 ^ s.length := by
  induction s with
  | nil => simp [assembleMSB]
  | cons b t ih =>
      have hA : assembleMSB (b :: t) =
          (if b then 1 else 0) * 2 ^ t.length + assembleMSB t := by
        simp only [assembleMSB, List.foldl_cons, Nat.zero_mul, Nat.zero_add]
        exact assembleMSB_from t _
      rw [hA, List.length_cons, pow_succ]
      rcases b with _ | _ <;> simp <;> omega

theorem shiftIn_foldl (s : List Bool) : ∀ init : Nat, s ≠ [] →
    s.foldl shiftInBit init = (init * 2 ^ s.length + assembleMSB s) % 256 := by
  induction s with
  | nil => intro init h; exact absurd rfl h
  | cons b t ih =>
      intro init _
      have hA : assembleMSB (b :: t) =
          (if b then 1 else 0) * 2 ^ t.length + assembleMSB t := by
        simp only [assembleMSB, List.foldl_cons, Nat.zero_mul, Nat.zero_add]
        exact assembleMSB_from t _
      rcases t with _ | ⟨c, u⟩
      · simp [shiftInBit, assembleMSB]
      · have hmod : ∀ x y z : Nat, (x % 256 * y + z) % 256 = (x * y + z) % 256 := by
          intro x y z
          exact ((Nat.mod_modEq x 256).mul_right y).add_right z
        simp only [List.foldl_cons]
        rw [show shiftInBit init b = (init * 2 + if b then 1 else 0) % 256 from rfl]
        have ihc := ih ((init * 2 + if b then 1 else 0) % 256) (by simp)
        simp only [List.foldl_cons] at ihc ⊢
        rw [ihc, hmod, hA]
        rw [List.length_cons, List.length_cons, List.length_cons]
        ring_nf

/-! ### Oracle-stream poll-loop lemmas -/

theorem waitReadyPoll_busy_none (f : Nat → Bool) (hf : ∀ n, f n = true) :
    ∀ fuel k, waitReadyPoll f fuel k = none := by
  intro fuel
  induction fuel with
  | zero => intro k; rfl
  | succ j ih => intro k; simp [waitReadyPoll, hf k, ih]

theorem waitReadyPoll_exit (f : Nat → Bool) :
    ∀ fuel k j, waitReadyPoll f fuel k = some j → f j = false := by
  intro fuel
  induction fuel with
  | zero => intro k j h; simp [waitReadyPoll] at h
  | succ fu ih =>
      intro k j h
      by_cases hk : f k = true
      · rw [waitReadyPoll, if_pos hk] at h
        exact ih (k + 1) j h
      · rw [waitReadyPoll, if_neg hk] at h
        cases h
        exact Bool.not_eq_true _ ▸ Bool.of_not_eq_true hk

theorem waitReadyPoll_term (f : Nat → Bool) :
    ∀ fuel k, (∃ n, k ≤ n ∧ n < k + fuel ∧ f n = false) →
      ∃ j, waitReadyPoll f fuel k = some j := by
  intro fuel
  induction fuel with
  | zero =>
      intro k h
      obtain ⟨n, h1, h2, _⟩ := h
      omega
  | succ fu ih =>
      intro k h
      obtain ⟨n, h1, h2, h3⟩ := h
      by_cases hk : f k = true
      · have hne : n ≠ k := by intro e; rw [e, hk] at h3; cases h3
        obtain ⟨j, hj⟩ := ih (k + 1) ⟨n, by omega, by omega, h3⟩
        exact ⟨j, by rw [waitReadyPoll, if_pos hk]; exact hj⟩
      · exact ⟨k, by rw [waitReadyPoll, if_neg hk]⟩

theorem statusPoll_busy_none (g : Nat → Nat) (hg : ∀ n, g n &&& 0x01 ≠ 0) :
    ∀ fuel k, statusPoll g fuel k = none := by
  intro fuel
  induction fuel with
  | zero => intro k; rfl
  | succ j ih => intro k; rw [statusPoll, if_pos (hg k)]; exact ih (k + 1)

theorem statusPoll_exit (g : Nat → Nat) :
    ∀ fuel k j, statusPoll g fuel k = some j → g j &&& 0x01 = 0 := by
  intro fuel
  induction fuel with
  | zero => intro k j h; simp [statusPoll] at h
  | succ fu ih =>
      intro k j h
      by_cases hk : g k &&& 0x01 ≠ 0
      · rw [statusPoll, if_pos hk] at h
        exact ih (k + 1) j h
      · rw [statusPoll, if_neg hk] at h
        cases h
        omega

theorem statusPoll_term (g : Nat → Nat) :
    ∀ fuel k, (∃ n, k ≤ n ∧ n < k + fuel ∧ g n &&& 0x01 = 0) →
      ∃ j, statusPoll g fuel k = some j := by
  intro fuel
  induction fuel with
  | zero =>
      intro k h
      obtain ⟨n, h1, h2, _⟩ := h
      omega
  | succ fu ih =>
      intro k h
      obtain ⟨n, h1, h2, h3⟩ := h
      by_cases hk : g k &&& 0x01 ≠ 0
      · have hne : n ≠ k := by intro e; rw [e] at h3; exact hk h3
        obtain ⟨j, hj⟩ := ih (k + 1) ⟨n, by omega, by omega, h3⟩
        exact ⟨j, by rw [statusPoll, if_pos hk]; exact hj⟩
      · exact ⟨k, by rw [statusPoll, if_neg hk]⟩

/-! ### Trace-counting helper lemmas -/

theorem countP_replicate_zero (p : Op → Bool) (x : Op) (hx : p x = false) :
    ∀ n, List.countP p (List.replicate n x) = 0 := by
  intro n
  induction n with
  | zero => rfl
  | succ k ih => simp [List.replicate_succ, List.countP_cons, hx, ih]

theorem countP_recvMap_zero (p : Op → Bool) (hp : ∀ b, p (Op.recv b) = false) :
    ∀ l : List Nat, List.countP p (l.map Op.recv) = 0 := by
  intro l
  induction l with
  | nil => rfl
  | cons b rest ih => simp [List.countP_cons, hp, ih]

theorem sentBytes_recvMap (l : List Nat) : sentBytes (l.map Op.recv) = [] := by
  induction l with
  | nil => rfl
  | cons b rest ih => simp [sentBytes, List.filterMap_cons, ih]

theorem selCount_pollTrace (wel : Bool) :
    ∀ b, selCount (pollTrace wel b) = b + 1 := by
  intro b
  induction b with
  | zero => simp [pollTrace, selCount, List.countP_cons, isSel]
  | succ k ih =>
      simp only [selCount] at ih ⊢
      rw [pollTrace]
      simp [List.countP_cons, isSel, ih]

theorem deselCount_pollTrace (wel : Bool) :
    ∀ b, deselCount (pollTrace wel b) = b + 1 := by
  intro b
  induction b with
  | zero => simp [pollTrace, deselCount, List.countP_cons, isDesel]
  | succ k ih =>
      simp only [deselCount] at ih ⊢
      rw [pollTrace]
      simp [List.countP_cons, isDesel, ih]

theorem sentBytes_pollTrace (wel : Bool) :
    ∀ b, sentBytes (pollTrace wel b) = List.replicate (b + 1) 0x05 := by
  intro b
  induction b with
  | zero => simp [pollTrace, sentBytes, List.filterMap_cons]
  | succ k ih =>
      simp only [sentBytes] at ih ⊢
      rw [pollTrace]
      simp [List.filterMap_cons, ih, List.replicate_succ]

theorem delay10_pollTrace (wel : Bool) :
    ∀ b, delay10Count (pollTrace wel b) = 0 := by
  intro b
  induction b with
  | zero => simp [pollTrace, delay10Count, List.countP_cons, SELSDELAY]
  | succ k ih =>
      simp only [delay10Count] at ih ⊢
      rw [pollTrace]
      simp [List.countP_cons, SELSDELAY, ih]

theorem selCount_wbTrace (lat : Nat) :
    ∀ (data : List Nat) (A : Nat),
      selCount (wbTrace A lat data) = data.length * (lat + 3) := by
  intro data
  induction data with
  | nil => intro A; simp [wbTrace, selCount]
  | cons b rest ih =>
      intro A
      have hp := selCount_pollTrace true lat
      simp only [selCount] at ih hp ⊢
      rw [wbTrace]
      simp [List.countP_cons, List.countP_append, isSel, hp, ih (A + 1), List.length_cons]
      ring

theorem deselCount_wbTrace (lat : Nat) :
    ∀ (data : List Nat) (A : Nat),
      deselCount (wbTrace A lat data) = data.length * (lat + 3) := by
  intro data
  induction data with
  | nil => intro A; simp [wbTrace, deselCount]
  | cons b rest ih =>
      intro A
      have hp := deselCount_pollTrace true lat
      simp only [deselCount] at ih hp ⊢
      rw [wbTrace]
      simp [List.countP_cons, List.countP_append, isDesel, hp, ih (A + 1), List.length_cons]
      ring

theorem sentBytes_wbTrace (lat : Nat) :
    ∀ (data : List Nat) (A : Nat),
      sentBytes (wbTrace A lat data) = wbSent A lat data := by
  intro data
  induction data with
  | nil => intro A; rfl
  | cons b rest ih =>
      intro A
      have hp := sentBytes_pollTrace true lat
      simp only [sentBytes] at ih hp ⊢
      rw [wbTrace, wbSent]
      simp [List.filterMap_cons, List.filterMap_append, hp, ih (A + 1)]

theorem delay10_wbTrace (lat : Nat) :
    ∀ (data : List Nat) (A : Nat),
      delay10Count (wbTrace A lat data) = data.length := by
  intro data
  induction data with
  | nil => intro A; rfl
  | cons b rest ih =>
      intro A
      have hp := delay10_pollTrace true lat
      simp only [delay10Count] at ih hp ⊢
      rw [wbTrace]
      simp [List.countP_cons, List.countP_append, SELSDELAY, hp, ih (A + 1)]

/-! ### Claim theorems -/

/-- C5: `STFlash_SendByte` transmits the 8 bits of its argument
most-significant-bit first: for each bit it drives the data line to the
bit, raises the clock, holds a fixed delay, lowers the clock and holds
the same delay; in particular sending 0b10110000 puts bits
1,0,1,1,0,0,0,0 on the wire. -/
theorem C5_sendByte_msb_first (v : Nat) :
    STFlash_SendByte_bits v = sendPattern (bitsMSB (v % 256)) ∧
    dataBits (STFlash_SendByte_bits v) = bitsMSB (v % 256) ∧
    dataBits (STFlash_SendByte_bits 0xB0) =
      [true, false, true, true, false, false, false, false] := by
  have h := SendByte_loop_eq_pattern (v % 256) (Nat.mod_lt _ (by omega))
  refine ⟨h, ?_, by decide⟩
  rw [show STFlash_SendByte_bits v = STFlash_SendByte_loop 8 (v % 256) from rfl, h,
      dataBits_sendPattern]

/-- C9: the byte returned by `STFlash_GetByte` is fully determined by the
8 sampled line levels, assembled MSB-first; the initial (uninitialized)
value of the local accumulator does not affect the result, since all 8 of
its original bits are shifted out. -/
theorem C9_getByte_init_independent (init1 init2 : Nat) (s : List Bool)
    (h : s.length = 8) :
    STFlash_GetByte_bits init1 s = STFlash_GetByte_bits init2 s ∧
    STFlash_GetByte_bits init1 s = assembleMSB s := by
  have hne : s ≠ [] := by intro e; rw [e] at h; simp at h
  have e1 := shiftIn_foldl s init1 hne
  have e2 := shiftIn_foldl s init2 hne
  rw [h] at e1 e2
  have hlt : assembleMSB s < 256 := by
    have hx := assembleMSB_lt s
    rw [h] at hx
    simpa using hx
  constructor
  · simp only [STFlash_GetByte_bits]
    rw [e1, e2]
    norm_num
    omega
  · simp only [STFlash_GetByte_bits]
    rw [e1]
    norm_num
    omega

/-- Witness for C9: both runs of the receive shift loop on the same 8
sampled levels return the assembled byte, for two different initial
accumulator values. -/
theorem C9_witness :
    STFlash_GetByte_bits 170 [true, false, true, true, false, false, false, false] =
      STFlash_GetByte_bits 23 [true, false, true, true, false, false, false, false] ∧
    STFlash_GetByte_bits 170 [true, false, true, true, false, false, false, false] =
      assembleMSB [true, false, true, true, false, false, false, false] :=
  C9_getByte_init_independent 170 23 _ (by decide)

/-- C8: the two busy-wait loops have no timeout.  Over any oracle stream
of samples, the line poll of `STFlash_waitUntilReady` (`waitReadyPoll`)
and the status poll of `STFlash_WriteBlock` (`statusPoll`) return for
some fuel iff the stream eventually reports not-busy, and for a stream
that forever reports busy they never return. -/
theorem C8_polls_no_timeout (f : Nat → Bool) (g : Nat → Nat) :
    ((∃ fuel j, waitReadyPoll f fuel 0 = some j) ↔ (∃ n, f n = false)) ∧
    ((∀ n, f n = true) → ∀ fuel, waitReadyPoll f fuel 0 = none) ∧
    ((∃ fuel j, statusPoll g fuel 0 = some j) ↔ (∃ n, g n &&& 0x01 = 0)) ∧
    ((∀ n, g n &&& 0x01 ≠ 0) → ∀ fuel, statusPoll g fuel 0 = none) := by
  refine ⟨⟨?_, ?_⟩, ?_, ⟨?_, ?_⟩, ?_⟩
  · rintro ⟨fuel, j, hj⟩
    exact ⟨j, waitReadyPoll_exit f fuel 0 j hj⟩
  · rintro ⟨n, hn⟩
    obtain ⟨j, hj⟩ := waitReadyPoll_term f (n + 1) 0 ⟨n, by omega, by omega, hn⟩
    exact ⟨n + 1, j, hj⟩
  · intro hf fuel
    exact waitReadyPoll_busy_none f hf fuel 0
  · rintro ⟨fuel, j, hj⟩
    exact ⟨j, statusPoll_exit g fuel 0 j hj⟩
  · rintro ⟨n, hn⟩
    obtain ⟨j, hj⟩ := statusPoll_term g (n + 1) 0 ⟨n, by omega, by omega, hn⟩
    exact ⟨n + 1, j, hj⟩
  · intro hg fuel
    exact statusPoll_busy_none g hg fuel 0

/-- Witness for C8: on streams that always report busy, both loops are
still spinning after 5 polls. -/
theorem C8_witness :
    waitReadyPoll (fun _ => true) 5 0 = none ∧
    statusPoll (fun _ => 1) 5 0 = none :=
  ⟨(C8_polls_no_timeout (fun _ => true) (fun _ => 1)).2.1 (fun _ => rfl) 5,
   (C8_polls_no_timeout (fun _ => true) (fun _ => 1)).2.2.2 (fun _ => by decide) 5⟩

/-- C4: every addressed command (`STFlash_ReadBlock` opcode 0x03,
`STFlash_Write1Byte` opcode 0x02, `STFlash_EraseBlock` opcode 0xD8)
transmits exactly the three address bytes in big-endian order (byte 2,
byte 1, byte 0) immediately after its opcode, independent of the length
argument; `Make8 0x012345` gives address bytes 0x01, 0x23, 0x45.  The
equations list every byte the call sends, in order (the 0x06 and 0x04
frames are the write-enable/disable wrappers of the program and erase
commands). -/
theorem C4_address_framing (A n v : Nat) (mem : Nat → Nat) (wel : Bool)
    (busy lat ri : Nat) (fr : List Nat) (t : List Op) :
    sentBytes (STFlash_ReadBlock A n ⟨⟨mem, wel, busy, lat, false, fr, ri⟩, t⟩).2.trace =
      sentBytes t ++ [0x03, Make8 A 2, Make8 A 1, Make8 A 0] ∧
    sentBytes (STFlash_Write1Byte A v ⟨⟨mem, wel, busy, lat, false, fr, ri⟩, t⟩).trace =
      sentBytes t ++ [0x06, 0x02, Make8 A 2, Make8 A 1, Make8 A 0, v % 256] ∧
    sentBytes (STFlash_EraseBlock A ⟨⟨mem, wel, busy, lat, false, fr, ri⟩, t⟩).trace =
      sentBytes t ++ [0x06, 0xD8, Make8 A 2, Make8 A 1, Make8 A 0, 0x04] ∧
    Make8 0x012345 2 = 0x01 ∧ Make8 0x012345 1 = 0x23 ∧ Make8 0x012345 0 = 0x45 := by
  refine ⟨?_, ?_, ?_, by decide, by decide, by decide⟩
  · rw [ReadBlock_eq]
    have hrm := sentBytes_recvMap (readSeq mem (addr24 (Make8 A 2) (Make8 A 1) (Make8 A 0)) 0 n)
    simp only [sentBytes] at hrm ⊢
    simp [List.filterMap_cons, List.filterMap_append, hrm]
  · rw [Write1Byte_eq]
    simp only [sentBytes]
    simp [List.filterMap_cons, List.filterMap_append]
  · rw [EraseBlock_eq]
    simp only [sentBytes]
    simp [List.filterMap_cons, List.filterMap_append]

/-- C10: no addressed operation validates its address: a bus transaction
is always issued, the transmitted address field encodes the address
modulo 2^24 (`addr24` of the three `Make8` bytes), and two addresses
congruent modulo 2^24 produce identical wire traffic and device effects
for `STFlash_ReadBlock`, `STFlash_Write1Byte` and `STFlash_EraseBlock`. -/
theorem C10_address_mod_2pow24 (A B n v : Nat) (mem : Nat → Nat) (wel : Bool)
    (busy lat ri : Nat) (fr : List Nat) (t : List Op)
    (h : A % 16777216 = B % 16777216) :
    STFlash_ReadBlock A n ⟨⟨mem, wel, busy, lat, false, fr, ri⟩, t⟩ =
      STFlash_ReadBlock B n ⟨⟨mem, wel, busy, lat, false, fr, ri⟩, t⟩ ∧
    STFlash_Write1Byte A v ⟨⟨mem, wel, busy, lat, false, fr, ri⟩, t⟩ =
      STFlash_Write1Byte B v ⟨⟨mem, wel, busy, lat, false, fr, ri⟩, t⟩ ∧
    STFlash_EraseBlock A ⟨⟨mem, wel, busy, lat, false, fr, ri⟩, t⟩ =
      STFlash_EraseBlock B ⟨⟨mem, wel, busy, lat, false, fr, ri⟩, t⟩ ∧
    addr24 (Make8 A 2) (Make8 A 1) (Make8 A 0) = A % 16777216 ∧
    sentBytes (STFlash_EraseBlock A ⟨⟨mem, wel, busy, lat, false, fr, ri⟩, t⟩).trace ≠
      sentBytes t := by
  have h2 : Make8 A 2 = Make8 B 2 := by simp only [Make8]; omega
  have h1 : Make8 A 1 = Make8 B 1 := by simp only [Make8]; omega
  have h0 : Make8 A 0 = Make8 B 0 := by simp only [Make8]; omega
  refine ⟨?_, ?_, ?_, addr24_Make8 A, ?_⟩
  · simp only [STFlash_ReadBlock, h2, h1, h0]
  · simp only [STFlash_Write1Byte, h2, h1, h0]
  · simp only [STFlash_EraseBlock, h2, h1, h0]
  · rw [EraseBlock_eq]
    simp only [sentBytes]
    simp [List.filterMap_cons, List.filterMap_append]

/-- Witness for C10: addresses 0x1000009 and 9 are congruent modulo 2^24
and produce identical transactions. -/
theorem C10_witness :
    STFlash_ReadBlock 16777225 1 m0 = STFlash_ReadBlock 9 1 m0 ∧
    STFlash_Write1Byte 16777225 5 m0 = STFlash_Write1Byte 9 5 m0 ∧
    STFlash_EraseBlock 16777225 m0 = STFlash_EraseBlock 9 m0 ∧
    addr24 (Make8 16777225 2) (Make8 16777225 1) (Make8 16777225 0) =
      16777225 % 16777216 ∧
    sentBytes (STFlash_EraseBlock 16777225 m0).trace ≠ sentBytes ([] : List Op) :=
  C10_address_mod_2pow24 16777225 9 1 5 (fun _ => 0) false 0 0 0 [] [] (by decide)

theorem Write1Byte_sel_wel (A v : Nat) (m : M) (h : m.dev.sel = false) :
    (STFlash_Write1Byte A v m).dev.sel = false ∧
    (STFlash_Write1Byte A v m).dev.wel = true := by
  obtain ⟨⟨mem, wel, busy, lat, sel, fr, ri⟩, t⟩ := m
  simp only at h
  subst h
  rw [Write1Byte_eq]
  exact ⟨rfl, rfl⟩

theorem foldl_Write1Byte_wel (ps : List (Nat × Nat)) :
    ∀ m : M, m.dev.sel = false → m.dev.wel = true →
      (List.foldl (fun acc p => STFlash_Write1Byte p.1 p.2 acc) m ps).dev.wel = true := by
  induction ps with
  | nil => intro m _ hw; exact hw
  | cons p ps ih =>
      intro m hs _
      rw [List.foldl_cons]
      have h := Write1Byte_sel_wel p.1 p.2 m hs
      exact ih _ h.1 h.2

/-- C6: `STFlash_Write1Byte` never issues a write-disable — its two
transactions are exactly a write-enable frame and a program frame, and no
0x04 frame occurs; the device's write-enable latch is set after the call
and stays set across any further sequence of `STFlash_Write1Byte` calls,
until `STFlash_WriteDisable` is called (which clears it) or
`STFlash_WriteBlock` completes (whose final state has the latch
cleared). -/
theorem C6_writeByte_keeps_wel (A v : Nat) (ps : List (Nat × Nat))
    (data : List Nat) (mem : Nat → Nat) (wel : Bool) (busy lat ri : Nat)
    (fr : List Nat) (t : List Op) :
    frames (STFlash_Write1Byte A v ⟨⟨mem, wel, busy, lat, false, fr, ri⟩, []⟩).trace =
      [[0x06], [0x02, Make8 A 2, Make8 A 1, Make8 A 0, v % 256]] ∧
    [0x04] ∉ frames (STFlash_Write1Byte A v ⟨⟨mem, wel, busy, lat, false, fr, ri⟩, []⟩).trace ∧
    (List.foldl (fun acc p => STFlash_Write1Byte p.1 p.2 acc)
        (STFlash_Write1Byte A v ⟨⟨mem, wel, busy, lat, false, fr, ri⟩, t⟩) ps).dev.wel
      = true ∧
    (STFlash_WriteDisable ⟨⟨mem, wel, busy, lat, false, fr, ri⟩, t⟩).dev.wel = false ∧
    (∃ m', STFlash_WriteBlock A data (lat + 1) ⟨⟨mem, wel, busy, lat, false, fr, ri⟩, t⟩ =
        some m' ∧ m'.dev.wel = false) := by
  have hfr :
      frames (STFlash_Write1Byte A v ⟨⟨mem, wel, busy, lat, false, fr, ri⟩, []⟩).trace =
        [[0x06], [0x02, Make8 A 2, Make8 A 1, Make8 A 0, v % 256]] := by
    rw [Write1Byte_eq]
    simp [frames, framesAux]
  refine ⟨hfr, ?_, ?_, ?_, ?_⟩
  · rw [hfr]
    simp
  · have h := Write1Byte_sel_wel A v ⟨⟨mem, wel, busy, lat, false, fr, ri⟩, t⟩ rfl
    exact foldl_Write1Byte_wel ps _ h.1 h.2
  · rw [WriteDisable_eq]
  · rcases data with _ | ⟨b, rest⟩
    · exact ⟨_, WriteBlock_eq [] A mem wel busy lat ri fr t (lat + 1) (by omega), rfl⟩
    · exact ⟨_, WriteBlock_eq (b :: rest) A mem wel busy lat ri fr t (lat + 1) (by omega), rfl⟩

/-- C3: `STFlash_WriteBlock` iterates over the buffer in order; for byte
`i` it calls `STFlash_Write1Byte` at address `A + i`, waits the fixed
10 us delay, then repeatedly polls `STFlash_readStatus` until bit 0
(busy) is clear, and only then proceeds; after the loop it issues exactly
one `STFlash_WriteDisable`.  The run's trace is exactly `wbTrace`
followed by the single write-disable transaction; per byte, `wbTrace`
carries the claim-side `wbSent` byte pattern (write-enable, program
frame with address and data, then the status reads) and exactly one
10 us delay. -/
theorem C3_writeBlock_structure (A : Nat) (data : List Nat) (mem : Nat → Nat)
    (wel : Bool) (busy lat ri : Nat) (fr : List Nat) (t : List Op) :
    (∃ m', STFlash_WriteBlock A data (lat + 1) ⟨⟨mem, wel, busy, lat, false, fr, ri⟩, t⟩ =
        some m' ∧
      m'.trace = t ++ wbTrace A lat data ++
        [Op.clkLow, Op.sel, Op.delayUs SELSDELAY, Op.send 0x04,
         Op.desel, Op.clkLow, Op.delayUs SELSDELAY]) ∧
    sentBytes (wbTrace A lat data) = wbSent A lat data ∧
    delay10Count (wbTrace A lat data) = data.length := by
  refine ⟨?_, sentBytes_wbTrace lat data A, delay10_wbTrace lat data A⟩
  rcases data with _ | ⟨b, rest⟩
  · exact ⟨_, WriteBlock_eq [] A mem wel busy lat ri fr t (lat + 1) (by omega),
      by simp [wbTrace]⟩
  · exact ⟨_, WriteBlock_eq (b :: rest) A mem wel busy lat ri fr t (lat + 1) (by omega),
      rfl⟩

/-- C2 counterexample: `STFlash_writeStatus` performs three chip selects
and three deselects within a single call (its own transaction plus the
write-enable and write-disable wrappers), not exactly one. -/
theorem C2_counterexample :
    selCount (STFlash_writeStatus 0 m0).trace = 3 ∧
    deselCount (STFlash_writeStatus 0 m0).trace = 3 ∧
    selCount (STFlash_writeStatus 0 m0).trace ≠ 1 := by
  refine ⟨?_, ?_, ?_⟩ <;> decide

/-- C2 (amended): every public command returns with the chip-select line
inactive and closes every select it opens — the trace segment a call
appends contains equally many select and deselect edges.  Simple commands
(`STFlash_readStatus`, `STFlash_waitUntilReady`, `STFlash_WriteEnable`,
`STFlash_WriteDisable`, `STFlash_ReadBlock`) open exactly one pair, while
the composite commands (`STFlash_writeStatus`, `STFlash_Write1Byte`,
`STFlash_EraseBlock`, `STFlash_WriteBlock`) open one pair per constituent
transaction, not exactly one per call. -/
theorem C2_deselect_on_exit (A n v value : Nat) (data : List Nat)
    (mem : Nat → Nat) (wel : Bool) (busy lat ri : Nat) (fr : List Nat) (t : List Op) :
    balancedFrom ⟨⟨mem, wel, busy, lat, false, fr, ri⟩, t⟩
      (STFlash_readStatus ⟨⟨mem, wel, busy, lat, false, fr, ri⟩, t⟩).2 ∧
    balancedFromO ⟨⟨mem, wel, busy, lat, false, fr, ri⟩, t⟩
      (STFlash_waitUntilReady (busy + 1) ⟨⟨mem, wel, busy, lat, false, fr, ri⟩, t⟩) ∧
    balancedFrom ⟨⟨mem, wel, busy, lat, false, fr, ri⟩, t⟩
      (STFlash_WriteEnable ⟨⟨mem, wel, busy, lat, false, fr, ri⟩, t⟩) ∧
    balancedFrom ⟨⟨mem, wel, busy, lat, false, fr, ri⟩, t⟩
      (STFlash_WriteDisable ⟨⟨mem, wel, busy, lat, false, fr, ri⟩, t⟩) ∧
    balancedFrom ⟨⟨mem, wel, busy, lat, false, fr, ri⟩, t⟩
      (STFlash_writeStatus value ⟨⟨mem, wel, busy, lat, false, fr, ri⟩, t⟩) ∧
    balancedFrom ⟨⟨mem, wel, busy, lat, false, fr, ri⟩, t⟩
      (STFlash_ReadBlock A n ⟨⟨mem, wel, busy, lat, false, fr, ri⟩, t⟩).2 ∧
    balancedFrom ⟨⟨mem, wel, busy, lat, false, fr, ri⟩, t⟩
      (STFlash_Write1Byte A v ⟨⟨mem, wel, busy, lat, false, fr, ri⟩, t⟩) ∧
    balancedFrom ⟨⟨mem, wel, busy, lat, false, fr, ri⟩, t⟩
      (STFlash_EraseBlock A ⟨⟨mem, wel, busy, lat, false, fr, ri⟩, t⟩) ∧
    balancedFromO ⟨⟨mem, wel, busy, lat, false, fr, ri⟩, t⟩
      (STFlash_WriteBlock A data (lat + 1) ⟨⟨mem, wel, busy, lat, false, fr, ri⟩, t⟩) := by
  refine ⟨?_, ?_, ?_, ?_, ?_, ?_, ?_, ?_, ?_⟩
  · rw [readStatus_eq]
    exact ⟨_, rfl, by simp [selCount, deselCount, List.countP_cons, isSel, isDesel], rfl⟩
  · rw [waitUntilReady_eq (busy + 1) mem wel busy lat ri fr t (by omega)]
    refine ⟨_, rfl, ?_, rfl⟩
    simp [selCount, deselCount, List.countP_cons, List.countP_append, isSel, isDesel,
          countP_replicate_zero isSel (Op.pollDO true) rfl,
          countP_replicate_zero isDesel (Op.pollDO true) rfl]
  · rw [WriteEnable_eq]
    exact ⟨_, rfl, by simp [selCount, deselCount, List.countP_cons, isSel, isDesel], rfl⟩
  · rw [WriteDisable_eq]
    exact ⟨_, rfl, by simp [selCount, deselCount, List.countP_cons, isSel, isDesel], rfl⟩
  · rw [writeStatus_eq]
    exact ⟨_, rfl, by simp [selCount, deselCount, List.countP_cons, isSel, isDesel], rfl⟩
  · rw [ReadBlock_eq]
    refine ⟨_, rfl, ?_, rfl⟩
    simp [selCount, deselCount, List.countP_cons, List.countP_append, isSel, isDesel,
          countP_recvMap_zero isSel (fun _ => rfl),
          countP_recvMap_zero isDesel (fun _ => rfl)]
  · rw [Write1Byte_eq]
    exact ⟨_, rfl, by simp [selCount, deselCount, List.countP_cons, isSel, isDesel], rfl⟩
  · rw [EraseBlock_eq]
    exact ⟨_, rfl, by simp [selCount, deselCount, List.countP_cons, isSel, isDesel], rfl⟩
  · rcases data with _ | ⟨b, rest⟩
    · rw [WriteBlock_eq [] A mem wel busy lat ri fr t (lat + 1) (by omega)]
      exact ⟨_, rfl, by simp [selCount, deselCount, List.countP_cons, isSel, isDesel], rfl⟩
    · rw [WriteBlock_eq (b :: rest) A mem wel busy lat ri fr t (lat + 1) (by omega)]
      refine ⟨wbTrace A lat (b :: rest) ++
          [Op.clkLow, Op.sel, Op.delayUs SELSDELAY, Op.send 0x04,
           Op.desel, Op.clkLow, Op.delayUs SELSDELAY],
        by simp [List.append_assoc], ?_, rfl⟩
      have h1 := selCount_wbTrace lat (b :: rest) A
      have h2 := deselCount_wbTrace lat (b :: rest) A
      simp only [selCount, deselCount] at h1 h2 ⊢
      simp [List.countP_append, List.countP_cons, isSel, isDesel, h1, h2]

/-- C7 counterexample: `STFlash_EraseBlock` performs three select →
deselect traversals in one call (the write-enable wrapper, the erase
transaction and the write-disable wrapper), not one. -/
theorem C7_counterexample :
    selCount (STFlash_EraseBlock 0 m0).trace = 3 ∧
    deselCount (STFlash_EraseBlock 0 m0).trace = 3 ∧
    selCount (STFlash_EraseBlock 0 m0).trace ≠ 1 := by
  refine ⟨?_, ?_, ?_⟩ <;> decide

/-- C7 (amended): each call of `STFlash_readStatus`,
`STFlash_waitUntilReady`, `STFlash_WriteEnable`, `STFlash_WriteDisable`
and `STFlash_ReadBlock` performs exactly one select → deselect traversal
of the transaction chain; `STFlash_Write1Byte` performs two,
`STFlash_writeStatus` and `STFlash_EraseBlock` three, and
`STFlash_WriteBlock` performs `lat + 3` traversals per buffer byte (the
write-enable and program transactions plus `lat + 1` status reads) and
one final write-disable traversal — so commands other than `WriteBlock`
that wrap write-enable/disable also span multiple traversals, contrary to
the claim. -/
theorem C7_traversal_counts (A n v value : Nat) (data : List Nat)
    (mem : Nat → Nat) (wel : Bool) (busy lat ri : Nat) (fr : List Nat) (t : List Op) :
    traversals ⟨⟨mem, wel, busy, lat, false, fr, ri⟩, t⟩
      (STFlash_readStatus ⟨⟨mem, wel, busy, lat, false, fr, ri⟩, t⟩).2 1 ∧
    traversalsO ⟨⟨mem, wel, busy, lat, false, fr, ri⟩, t⟩
      (STFlash_waitUntilReady (busy + 1) ⟨⟨mem, wel, busy, lat, false, fr, ri⟩, t⟩) 1 ∧
    traversals ⟨⟨mem, wel, busy, lat, false, fr, ri⟩, t⟩
      (STFlash_WriteEnable ⟨⟨mem, wel, busy, lat, false, fr, ri⟩, t⟩) 1 ∧
    traversals ⟨⟨mem, wel, busy, lat, false, fr, ri⟩, t⟩
      (STFlash_WriteDisable ⟨⟨mem, wel, busy, lat, false, fr, ri⟩, t⟩) 1 ∧
    traversals ⟨⟨mem, wel, busy, lat, false, fr, ri⟩, t⟩
      (STFlash_ReadBlock A n ⟨⟨mem, wel, busy, lat, false, fr, ri⟩, t⟩).2 1 ∧
    traversals ⟨⟨mem, wel, busy, lat, false, fr, ri⟩, t⟩
      (STFlash_Write1Byte A v ⟨⟨mem, wel, busy, lat, false, fr, ri⟩, t⟩) 2 ∧
    traversals ⟨⟨mem, wel, busy, lat, false, fr, ri⟩, t⟩
      (STFlash_writeStatus value ⟨⟨mem, wel, busy, lat, false, fr, ri⟩, t⟩) 3 ∧
    traversals ⟨⟨mem, wel, busy, lat, false, fr, ri⟩, t⟩
      (STFlash_EraseBlock A ⟨⟨mem, wel, busy, lat, false, fr, ri⟩, t⟩) 3 ∧
    traversalsO ⟨⟨mem, wel, busy, lat, false, fr, ri⟩, t⟩
      (STFlash_WriteBlock A data (lat + 1) ⟨⟨mem, wel, busy, lat, false, fr, ri⟩, t⟩)
      (data.length * (lat + 3) + 1) := by
  refine ⟨?_, ?_, ?_, ?_, ?_, ?_, ?_, ?_, ?_⟩
  · rw [readStatus_eq]
    exact ⟨_, rfl, by simp [selCount, List.countP_cons, isSel],
           by simp [deselCount, List.countP_cons, isDesel]⟩
  · rw [waitUntilReady_eq (busy + 1) mem wel busy lat ri fr t (by omega)]
    refine ⟨_, rfl, ?_, ?_⟩
    · simp [selCount, List.countP_cons, List.countP_append, isSel,
            countP_replicate_zero isSel (Op.pollDO true) rfl]
    · simp [deselCount, List.countP_cons, List.countP_append, isDesel,
            countP_replicate_zero isDesel (Op.pollDO true) rfl]
  · rw [WriteEnable_eq]
    exact ⟨_, rfl, by simp [selCount, List.countP_cons, isSel],
           by simp [deselCount, List.countP_cons, isDesel]⟩
  · rw [WriteDisable_eq]
    exact ⟨_, rfl, by simp [selCount, List.countP_cons, isSel],
           by simp [deselCount, List.countP_cons, isDesel]⟩
  · rw [ReadBlock_eq]
    refine ⟨_, rfl, ?_, ?_⟩
    · simp [selCount, List.countP_cons, List.countP_append, isSel,
            countP_recvMap_zero isSel (fun _ => rfl)]
    · simp [deselCount, List.countP_cons, List.countP_append, isDesel,
            countP_recvMap_zero isDesel (fun _ => rfl)]
  · rw [Write1Byte_eq]
    exact ⟨_, rfl, by simp [selCount, List.countP_cons, isSel],
           by simp [deselCount, List.countP_cons, isDesel]⟩
  · rw [writeStatus_eq]
    exact ⟨_, rfl, by simp [selCount, List.countP_cons, isSel],
           by simp [deselCount, List.countP_cons, isDesel]⟩
  · rw [EraseBlock_eq]
    exact ⟨_, rfl, by simp [selCount, List.countP_cons, isSel],
           by simp [deselCount, List.countP_cons, isDesel]⟩
  · rcases data with _ | ⟨b, rest⟩
    · rw [WriteBlock_eq [] A mem wel busy lat ri fr t (lat + 1) (by omega)]
      exact ⟨_, rfl, by simp [selCount, List.countP_cons, isSel],
             by simp [deselCount, List.countP_cons, isDesel]⟩
    · rw [WriteBlock_eq (b :: rest) A mem wel busy lat ri fr t (lat + 1) (by omega)]
      refine ⟨wbTrace A lat (b :: rest) ++
          [Op.clkLow, Op.sel, Op.delayUs SELSDELAY, Op.send 0x04,
           Op.desel, Op.clkLow, Op.delayUs SELSDELAY],
        by simp [List.append_assoc], ?_, ?_⟩
      · have h1 := selCount_wbTrace lat (b :: rest) A
        simp only [selCount] at h1 ⊢
        simp [List.countP_append, List.countP_cons, isSel, h1]
      · have h2 := deselCount_wbTrace lat (b :: rest) A
        simp only [deselCount] at h2 ⊢
        simp [List.countP_append, List.countP_cons, isDesel, h2]

theorem readSeq_writeMem (data : List Nat) (A : Nat) (mem : Nat → Nat)
    (hdata : ∀ x ∈ data, x < 256) (hlen : data.length ≤ 16777216) :
    readSeq (writeMem A data mem) (addr24 (Make8 A 2) (Make8 A 1) (Make8 A 0)) 0
      data.length = data := by
  apply List.ext_getElem
  · rw [readSeq_length]
  · intro i h1 h2
    rw [readSeq_getElem]
    rw [addr24_Make8, Nat.add_zero, Nat.mod_add_mod]
    rw [writeMem_get data A mem i h2 hlen]
    exact Nat.mod_eq_of_lt (hdata _ (List.getElem_mem h2))

/-- C1: for every address, byte buffer and device state, running
`STFlash_WriteBlock` and then `STFlash_ReadBlock` at the same address
and length returns exactly the written bytes (no erase occurs in
between).  The buffer holds bytes (each < 256) and its length fits the
source's 16-bit `size` argument; `fuel` bounds the unbounded status-poll
loop and any value beyond the device's write latency suffices. -/
theorem C1_writeBlock_readBlock_roundtrip (A : Nat) (data : List Nat)
    (mem : Nat → Nat) (wel : Bool) (busy lat ri : Nat) (fr : List Nat) (t : List Op)
    (fuel : Nat) (hdata : ∀ b ∈ data, b < 256) (hlen : data.length ≤ 65535)
    (hfuel : lat < fuel) :
    (STFlash_WriteBlock A data fuel ⟨⟨mem, wel, busy, lat, false, fr, ri⟩, t⟩).map
      (fun m' => (STFlash_ReadBlock A data.length m').1) = some data := by
  rcases data with _ | ⟨b, rest⟩
  · rw [WriteBlock_eq [] A mem wel busy lat ri fr t fuel hfuel]
    simp [ReadBlock_eq, readSeq]
  · rw [WriteBlock_eq (b :: rest) A mem wel busy lat ri fr t fuel hfuel]
    simp only [Option.map_some']
    rw [ReadBlock_eq]
    simp only [Option.some.injEq]
    exact readSeq_writeMem (b :: rest) A mem hdata (by omega)

/-- Witness for C1: a two-byte write at address 3 on a device with write
latency 1 reads back exactly the written bytes. -/
theorem C1_witness :
    (STFlash_WriteBlock 3 [7, 200] 2 ⟨⟨fun _ => 0, false, 5, 1, false, [], 0⟩, []⟩).map
      (fun m' => (STFlash_ReadBlock 3 2 m').1) = some [7, 200] :=
  C1_writeBlock_readBlock_roundtrip 3 [7, 200] (fun _ => 0) false 5 1 0 [] [] 2
    (by decide) (by decide) (by decide)

end SST25V
